import Mathlib

/-!
Shallow embedding of the e-commerce backend defined in
`supabase/migrations/0001_init.sql` (tables, triggers, RPC functions) and in
the edge function `functions/send-order-confirmation/index.ts`.

Tables are Lean lists of row structures; the SQL routines become state
transformers. A `raise exception` inside a plpgsql function aborts the
enclosing transaction, so each RPC is embedded as an `Except`-valued function
together with a `_txn` wrapper that restores the pre-call state on error
(the rollback). Timestamps irrelevant to the claims (`created_at`,
`updated_at`) are omitted; `mail_queue.processed_at` is kept as an abstract
`Option Nat` instant.
-/

/-- `public.order_status` enum from the migration. -/
inductive OrderStatus
  | pending
  | paid
  | shipped
  | delivered
  | canceled
deriving DecidableEq, Repr

/-- Row of `public.customers`. -/
structure Customer where
  id : Nat
  user_id : Option Nat
  full_name : String
  email : String
deriving DecidableEq, Repr

/-- Row of `public.products`. `stock` and `price_cents` are SQL `integer`s. -/
structure Product where
  id : Nat
  sku : String
  name : String
  price_cents : Int
  stock : Int
  active : Bool
deriving DecidableEq, Repr

/-- Row of `public.orders`. -/
structure Order where
  id : Nat
  customer_id : Nat
  status : OrderStatus
  total_cents : Int
deriving DecidableEq, Repr

/-- Row of `public.order_items`. -/
structure OrderItem where
  id : Nat
  order_id : Nat
  product_id : Nat
  quantity : Int
  unit_price_cents : Int
deriving DecidableEq, Repr

/-- Row of `public.mail_queue`; `status` is a free-form `text` column holding
`"pending"`, `"sent"` or `"error"`. -/
structure MailJob where
  id : Nat
  order_id : Nat
  to_email : String
  payload_customer_name : String
  status : String
  processed_at : Option Nat
deriving DecidableEq, Repr

/-- The database state: the five tables plus a fresh-id source standing for
the `gen_random_uuid()` / identity generators. -/
structure DB where
  customers : List Customer
  products : List Product
  orders : List Order
  order_items : List OrderItem
  mail_queue : List MailJob
  next_id : Nat
deriving DecidableEq, Repr

/-- The plpgsql `raise exception` messages, one constructor per distinct
message raised in the migration. -/
inductive Err
  | Unauthenticated      -- 'Usuário não autenticado'
  | CustomerNotFound     -- 'Cliente não encontrado'
  | InvalidQuantity      -- 'Quantidade inválida'
  | ProductUnavailable   -- 'Produto inválido ou inativo'
  | InsufficientStock    -- 'Estoque insuficiente'
  | OrderNotFound        -- 'Pedido não encontrado'
  | Forbidden            -- 'Ação não permitida'
deriving DecidableEq, Repr

/-- One element of the `items jsonb` array passed to `place_order`:
`(v_item->>'product_id')::uuid` and `(v_item->>'quantity')::int`, either of
which may be SQL `null`. -/
structure ReqItem where
  product_id : Option Nat
  quantity : Option Int
deriving DecidableEq, Repr

/-- `public.compute_order_total`: `coalesce(sum(quantity * unit_price_cents), 0)`
over the items of one order. -/
def compute_order_total (db : DB) (oid : Nat) : Int :=
  ((db.order_items.filter (fun oi => oi.order_id == oid)).map
    (fun oi => oi.quantity * oi.unit_price_cents)).sum

/-- `public.update_order_total` trigger body: re-store the computed total on
the order row named by the (inserted/updated/deleted) item row. -/
def update_order_total (db : DB) (oid : Nat) : DB :=
  { db with orders := (db.orders.map
      (fun o => if o.id == oid then { o with total_cents := compute_order_total db o.id } else o)) }

/-- Insert one `order_items` row, then fire `trg_order_items_total_aiud`. -/
def insert_order_item (db : DB) (oid pid : Nat) (qty price : Int) : DB :=
  update_order_total
    { db with
        order_items := db.order_items ++ [⟨db.next_id, oid, pid, qty, price⟩],
        next_id := db.next_id + 1 }
    oid

/-- `update public.order_items set quantity = qty where id = iid`, then fire
`trg_order_items_total_aiud` for each affected row. -/
def update_order_item_qty (db : DB) (iid : Nat) (qty : Int) : DB :=
  (db.order_items.filter (fun oi => oi.id == iid)).foldl
    (fun acc oi => update_order_total acc oi.order_id)
    { db with order_items := (db.order_items.map
        (fun oi => if oi.id == iid then { oi with quantity := qty } else oi)) }

/-- `delete from public.order_items where id = iid`, then fire
`trg_order_items_total_aiud` for each deleted row. -/
def delete_order_item (db : DB) (iid : Nat) : DB :=
  (db.order_items.filter (fun oi => oi.id == iid)).foldl
    (fun acc oi => update_order_total acc oi.order_id)
    { db with order_items := db.order_items.filter (fun oi => !(oi.id == iid)) }

/-- `select c.id from public.customers c where c.user_id = v_user_id`. -/
def find_customer_by_user (db : DB) (uid : Nat) : Option Customer :=
  db.customers.find? (fun c => c.user_id == some uid)

/-- `select price_cents from public.products p where p.id = v_product_id and
p.active = true` (`null` product id matches no row). -/
def lookup_active_price (db : DB) (pid : Option Nat) : Option Int :=
  (db.products.find? (fun p => some p.id == pid && p.active)).map (·.price_cents)

/-- Row predicate of the conditional update
`where p.id = v_product_id and p.stock >= v_qty`. -/
def stock_hit (pid : Option Nat) (qty : Int) (p : Product) : Bool :=
  some p.id == pid && decide (qty ≤ p.stock)

/-- `update public.products set stock = stock - v_qty where p.id = v_product_id
and p.stock >= v_qty`; `none` models `not found` (zero rows updated). -/
def reserve_stock (db : DB) (pid : Option Nat) (qty : Int) : Option DB :=
  if db.products.any (stock_hit pid qty) then
    some { db with products := (db.products.map
      (fun p => if stock_hit pid qty p then { p with stock := p.stock - qty } else p)) }
  else none

/-- The item loop of `place_order`: per item, in caller order — quantity
check, active-product price lookup, conditional stock decrement, item insert
(which fires the total trigger). -/
def place_order_items (db : DB) (oid : Nat) : List ReqItem → Except Err DB
  | [] => .ok db
  | it :: rest =>
    match it.quantity with
    | none => .error .InvalidQuantity
    | some qty =>
      if qty ≤ 0 then .error .InvalidQuantity
      else
        match lookup_active_price db it.product_id with
        | none => .error .ProductUnavailable
        | some price =>
          match reserve_stock db it.product_id qty with
          | none => .error .InsufficientStock
          | some db1 =>
            place_order_items
              (insert_order_item db1 oid (it.product_id.getD 0) qty price) oid rest

/-- `public.place_order(items jsonb)`: auth check, customer lookup, order
insert (status defaults to `pending`, total to `0`), then the item loop.
Errors abort the transaction; `place_order_txn` below applies the rollback. -/
def place_order (db : DB) (auth_uid : Option Nat) (items : List ReqItem) :
    Except Err (DB × Nat) :=
  match auth_uid with
  | none => .error .Unauthenticated
  | some uid =>
    match find_customer_by_user db uid with
    | none => .error .CustomerNotFound
    | some c =>
      match place_order_items
          { db with
              orders := db.orders ++ [⟨db.next_id, c.id, .pending, 0⟩],
              next_id := db.next_id + 1 }
          db.next_id items with
      | .error e => .error e
      | .ok db2 => .ok (db2, db.next_id)

/-- `place_order` as seen by the caller: on `raise exception` the whole
transaction rolls back, so the database is unchanged. -/
def place_order_txn (db : DB) (auth_uid : Option Nat) (items : List ReqItem) :
    DB × Except Err Nat :=
  match place_order db auth_uid items with
  | .error e => (db, .error e)
  | .ok (db1, oid) => (db1, .ok oid)

/-- The guard `v_user is not null and exists(select 1 from public.customers c
where c.id = v_cust and c.user_id = v_user)` of `set_order_status`. -/
def is_owner_caller (db : DB) (auth_uid : Option Nat) (cust : Nat) : Bool :=
  match auth_uid with
  | none => false
  | some u => db.customers.any (fun c => c.id == cust && c.user_id == some u)

/-- `trg_orders_paid_enqueue` / `public.enqueue_order_confirmation`: after an
update of `orders.status`, if the new status is `paid` and the old one was
not, insert a `mail_queue` row holding the customer's email and a payload
with the customer's name.  (The `customer_id` foreign key guarantees the
customer lookup finds a row; on the unreachable missing-customer branch the
model leaves the state unchanged.) -/
def enqueue_order_confirmation (db : DB) (o_new : Order) (old_status : OrderStatus) : DB :=
  if o_new.status = .paid ∧ old_status ≠ .paid then
    match db.customers.find? (fun c => c.id == o_new.customer_id) with
    | some c =>
      { db with
          mail_queue := db.mail_queue ++
            [⟨db.next_id, o_new.id, c.email, c.full_name, "pending", none⟩],
          next_id := db.next_id + 1 }
    | none => db
  else db

/-- `update public.orders set status = p_next where id = p_order_id`,
followed by the after-update-of-status trigger for the affected row `o`. -/
def status_update (db : DB) (oid : Nat) (next : OrderStatus) (o : Order) : DB :=
  enqueue_order_confirmation
    { db with orders := (db.orders.map
        (fun x => if x.id == oid then { x with status := next } else x)) }
    { o with status := next } o.status

/-- `public.set_order_status(p_order_id, p_next)`: order lookup, the
owner-only cancel-from-pending guard, then the unconditional status update. -/
def set_order_status (db : DB) (auth_uid : Option Nat) (oid : Nat)
    (next : OrderStatus) : Except Err DB :=
  match db.orders.find? (fun o => o.id == oid) with
  | none => .error .OrderNotFound
  | some o =>
    if is_owner_caller db auth_uid o.customer_id ∧
        (next ≠ .canceled ∨ o.status ≠ .pending) then
      .error .Forbidden
    else
      .ok (status_update db oid next o)

/-- `set_order_status` as seen by the caller, with rollback on error. -/
def set_order_status_txn (db : DB) (auth_uid : Option Nat) (oid : Nat)
    (next : OrderStatus) : DB × Except Err Unit :=
  match set_order_status db auth_uid oid next with
  | .error e => (db, .error e)
  | .ok db1 => (db1, .ok ())

/-- `update public.products set price_cents = newPrice where id = pid`
(the external admin price change; fires only `set_updated_at`). -/
def update_product_price (db : DB) (pid : Nat) (newPrice : Int) : DB :=
  { db with products := (db.products.map
      (fun p => if p.id == pid then { p with price_cents := newPrice } else p)) }

/-- The batch the edge function claims:
`.from("mail_queue").select(...).eq("status","pending").limit(10)`. -/
def claimed_jobs (db : DB) : List MailJob :=
  (db.mail_queue.filter (fun j => j.status == "pending")).take 10

/-- One `.update({status, processed_at}).eq("id", row.id)` call. -/
def mark_job (db : DB) (jid : Nat) (st : String) (now : Nat) : DB :=
  { db with mail_queue := (db.mail_queue.map
      (fun j => if j.id == jid then { j with status := st, processed_at := some now } else j)) }

/-- The `handler` of `send-order-confirmation/index.ts`: claim up to 10
pending jobs, then for each row independently attempt delivery and mark the
row `sent` on success or `error` on a thrown delivery failure. `deliver`
abstracts `sendEmail` (`true` = returned, `false` = threw). -/
def drain_mail_queue (deliver : MailJob → Bool) (now : Nat) (db : DB) : DB :=
  (claimed_jobs db).foldl
    (fun acc j => mark_job acc j.id (if deliver j then "sent" else "error") now)
    db

/-- Look a mail-queue row up by primary key. -/
def job_of (db : DB) (jid : Nat) : Option MailJob :=
  db.mail_queue.find? (fun j => j.id == jid)

/-- Look a product row up by primary key and return its stock. -/
def stock_of (db : DB) (pid : Nat) : Option Int :=
  (db.products.find? (fun p => p.id == pid)).map (·.stock)

/-- Quantity the items list requests for product `pid`
(the per-product sum of a `place_order` call's demands). -/
def reserved_for (pid : Nat) (items : List ReqItem) : Int :=
  ((items.filter (fun it => it.product_id == some pid)).map
    (fun it => it.quantity.getD 0)).sum

/-- Run a sequence of `place_order` calls (each `(auth_uid, items)`). -/
def run_orders : DB → List (Option Nat × List ReqItem) → DB
  | db, [] => db
  | db, (uid, items) :: rest => run_orders (place_order_txn db uid items).1 rest

/-- Total quantity of product `pid` reserved by the successful calls of a
sequence of `place_order` calls. -/
def successful_reserved (db : DB) (calls : List (Option Nat × List ReqItem)) (pid : Nat) : Int :=
  match calls with
  | [] => 0
  | (uid, items) :: rest =>
    match place_order_txn db uid items with
    | (db1, .ok _) => reserved_for pid items + successful_reserved db1 rest pid
    | (db1, .error _) => successful_reserved db1 rest pid

/-- Every product row has nonnegative stock (the `check (stock >= 0)`
constraint). -/
def stocks_nonneg (db : DB) : Prop :=
  ∀ p ∈ db.products, 0 ≤ p.stock

/-- Every order row stores the total computed from its current items. -/
def totals_ok (db : DB) : Prop :=
  ∀ o ∈ db.orders, o.total_cents = compute_order_total db o.id

deriving instance DecidableEq for Except

/-! ### Example states used by witnesses and counterexamples -/

/-- A customer linked to auth user 7. -/
def exCust : Customer := ⟨1, some 7, "Ana", "ana@example.com"⟩

/-- An active product with stock 5 and price 500. -/
def exProdA : Product := ⟨2, "BK-001", "ProdA", 500, 5, true⟩

/-- An active product with stock 4 and price 300. -/
def exProdB : Product := ⟨3, "BK-002", "ProdB", 300, 4, true⟩

/-- A catalog-only state: one customer, two products, no orders. -/
def exDb : DB := ⟨[exCust], [exProdA, exProdB], [], [], [], 10⟩

/-- A state with a pending order 5 owned by customer 1. -/
def exDbPend : DB := ⟨[exCust], [exProdA], [⟨5, 1, .pending, 0⟩], [], [], 10⟩

/-- A state with a paid order 5 owned by customer 1. -/
def exDbPaid : DB := ⟨[exCust], [exProdA], [⟨5, 1, .paid, 0⟩], [], [], 10⟩

/-- A state with a delivered order 5 owned by customer 1. -/
def exDbDeliv : DB := ⟨[exCust], [], [⟨5, 1, .delivered, 0⟩], [], [], 10⟩

/-- A queue state with two pending jobs around an already-sent one. -/
def exDbQueue : DB :=
  ⟨[], [], [], [],
   [⟨1, 5, "a@example.com", "Ana", "pending", none⟩,
    ⟨2, 5, "a@example.com", "Ana", "sent", none⟩,
    ⟨3, 5, "a@example.com", "Ana", "pending", none⟩], 10⟩

/-! ### C8: price snapshots -/

/-- C8: changing a product's price afterwards leaves every existing
line-item row (hence its `unit_price_cents` snapshot), every order row
(hence its stored total) and every computed total unchanged. -/
theorem price_change_preserves_snapshots (db : DB) (pid : Nat) (newPrice : Int) :
    (update_product_price db pid newPrice).order_items = db.order_items ∧
    (update_product_price db pid newPrice).orders = db.orders ∧
    ∀ oid, compute_order_total (update_product_price db pid newPrice) oid =
      compute_order_total db oid :=
  ⟨rfl, rfl, fun _ => rfl⟩

/-! ### C2: place_order is all-or-nothing -/

/-- C2: if a `place_order` call fails at any validation or reservation step —
even after earlier items were processed — the transaction rolls back: the
orders, order-items and products tables are exactly as before the call. -/
theorem place_order_all_or_nothing (db : DB) (uid : Option Nat)
    (items : List ReqItem) (db1 : DB) (e : Err)
    (h : place_order_txn db uid items = (db1, .error e)) :
    db1.orders = db.orders ∧ db1.order_items = db.order_items ∧
      db1.products = db.products := by
  unfold place_order_txn at h
  split at h
  · injection h with h1 h2
    subst h1
    exact ⟨rfl, rfl, rfl⟩
  · injection h with h1 h2
    exact Except.noConfusion h2

/-- C2 witness: the spec scenario — items `[(A, qty 2), (B, qty 0)]` fails
with the quantity error on the second item after the first was already
processed, and product A's stock is unchanged. -/
theorem place_order_all_or_nothing_witness :
    place_order_txn exDb (some 7) [⟨some 2, some 2⟩, ⟨some 3, some 0⟩] =
      (exDb, .error .InvalidQuantity) ∧
    (place_order_txn exDb (some 7) [⟨some 2, some 2⟩, ⟨some 3, some 0⟩]).1.products =
      exDb.products :=
  ⟨by decide,
   (place_order_all_or_nothing exDb (some 7) [⟨some 2, some 2⟩, ⟨some 3, some 0⟩]
      (place_order_txn exDb (some 7) [⟨some 2, some 2⟩, ⟨some 3, some 0⟩]).1
      .InvalidQuantity (by decide)).2.2⟩

/-! ### C3: no transition graph is enforced for privileged callers -/

/-- C3 counterexample: a privileged (unauthenticated/service) caller moves a
`delivered` order back to `pending` — a pair outside the claimed transition
graph — and the call succeeds instead of failing with InvalidTransition. -/
theorem set_order_status_no_graph_check :
    (set_order_status_txn exDbDeliv none 5 .pending).2 = .ok () ∧
    (set_order_status_txn exDbDeliv none 5 .pending).1.orders =
      [⟨5, 1, .pending, 0⟩] := by
  constructor
  · rfl
  · rfl

/-- C3 amended: for a privileged (non-owner) caller `set_order_status`
succeeds on every (current status, requested status) pair whatsoever — no
transition-graph check exists — and unconditionally stores the requested
status. -/
theorem set_order_status_privileged_any (db : DB) (uid : Option Nat)
    (oid : Nat) (next : OrderStatus) (o : Order)
    (ho : db.orders.find? (fun x => x.id == oid) = some o)
    (hpriv : is_owner_caller db uid o.customer_id = false) :
    set_order_status db uid oid next = .ok (status_update db oid next o) := by
  unfold set_order_status
  rw [ho]
  simp [hpriv]

/-- C3 amended witness: the service caller on the delivered order. -/
theorem set_order_status_privileged_any_witness :
    set_order_status exDbDeliv none 5 .pending =
      .ok (status_update exDbDeliv 5 .pending ⟨5, 1, .delivered, 0⟩) :=
  set_order_status_privileged_any exDbDeliv none 5 .pending ⟨5, 1, .delivered, 0⟩
    (by decide) (by decide)

/-! ### C4: the cancel-from-pending restriction binds only the owner -/

/-- C4: the pending→canceled restriction of `set_order_status` applies only
when the caller is the owning customer: an unauthenticated caller is never
an owner, an authenticated user with no matching customer row is never an
owner, and every non-owner caller may set any status from any status. -/
theorem owner_check_scope (db : DB) (oid : Nat) (o : Order)
    (ho : db.orders.find? (fun x => x.id == oid) = some o) :
    (∀ cust, is_owner_caller db none cust = false) ∧
    (∀ u cust, (∀ c ∈ db.customers, ¬(c.id = cust ∧ c.user_id = some u)) →
      is_owner_caller db (some u) cust = false) ∧
    (∀ uid next, is_owner_caller db uid o.customer_id = false →
      set_order_status db uid oid next = .ok (status_update db oid next o)) := by
  refine ⟨fun cust => rfl, fun u cust hnone => ?_, fun uid next hpriv => ?_⟩
  · unfold is_owner_caller
    simp only [List.any_eq_false]
    intro c hc
    have := hnone c hc
    simp only [Bool.and_eq_true, beq_iff_eq] at *
    tauto
  · unfold set_order_status
    rw [ho]
    simp [hpriv]

/-- C4 witness: an authenticated customer (user 9) who does not own
order 5 moves it from `delivered` to `shipped` — the restriction is
bypassed. -/
theorem owner_check_scope_witness :
    set_order_status exDbDeliv (some 9) 5 .shipped =
      .ok (status_update exDbDeliv 5 .shipped ⟨5, 1, .delivered, 0⟩) :=
  (owner_check_scope exDbDeliv 5 ⟨5, 1, .delivered, 0⟩ (by decide)).2.2
    (some 9) .shipped (by decide)

/-! ### C5: the owner may only cancel a pending order -/

/-- C5: when the caller is the order's owning customer, `set_order_status`
succeeds exactly when the requested status is `canceled` and the current
status is `pending`; every other pair fails with Forbidden and the
transaction leaves the database unchanged. -/
theorem owner_only_cancel_pending (db : DB) (uid : Option Nat) (oid : Nat)
    (next : OrderStatus) (o : Order)
    (ho : db.orders.find? (fun x => x.id == oid) = some o)
    (hown : is_owner_caller db uid o.customer_id = true) :
    (next = .canceled ∧ o.status = .pending →
      set_order_status db uid oid next = .ok (status_update db oid next o)) ∧
    (¬(next = .canceled ∧ o.status = .pending) →
      set_order_status_txn db uid oid next = (db, .error .Forbidden)) := by
  constructor
  · rintro ⟨h1, h2⟩
    unfold set_order_status
    rw [ho]
    simp [hown, h1, h2]
  · intro hno
    have hfail : set_order_status db uid oid next = .error .Forbidden := by
      unfold set_order_status
      rw [ho]
      have : next ≠ .canceled ∨ o.status ≠ .pending := by tauto
      simp [hown, this]
    unfold set_order_status_txn
    rw [hfail]

/-- C5 witness: the spec scenario — the owner requests `canceled` on a
`paid` order and gets Forbidden with no change. -/
theorem owner_only_cancel_pending_witness :
    set_order_status_txn exDbPaid (some 7) 5 .canceled =
      (exDbPaid, .error .Forbidden) :=
  (owner_only_cancel_pending exDbPaid (some 7) 5 .canceled ⟨5, 1, .paid, 0⟩
      (by decide) (by decide)).2 (by decide)

/-! ### C7: notification enqueued exactly on a transition into paid -/

/-- C7: a successful `set_order_status` call appends exactly one mail job —
carrying the order id, the customer's current email and the customer's name
— precisely when the new status is `paid` and the old one was not; every
other update (including paid→paid) appends nothing. -/
theorem enqueue_exactly_on_paid (db : DB) (uid : Option Nat) (oid : Nat)
    (next : OrderStatus) (o : Order) (c : Customer) (db1 : DB)
    (ho : db.orders.find? (fun x => x.id == oid) = some o)
    (hc : db.customers.find? (fun x => x.id == o.customer_id) = some c)
    (h : set_order_status db uid oid next = .ok db1) :
    db1.mail_queue =
      if next = .paid ∧ o.status ≠ .paid then
        db.mail_queue ++ [⟨db.next_id, o.id, c.email, c.full_name, "pending", none⟩]
      else db.mail_queue := by
  unfold set_order_status at h
  rw [ho] at h
  split at h
  · exact Except.noConfusion h
  · rename_i o2 heq
    injection heq with he
    subst he
    split at h
    · exact Except.noConfusion h
    · injection h with h1
      subst h1
      unfold status_update enqueue_order_confirmation
      by_cases hcond : next = .paid ∧ o.status ≠ .paid
      · rw [if_pos hcond, if_pos hcond, hc]
      · rw [if_neg hcond, if_neg hcond]

/-- C7 witness: moving the pending order 5 to `paid` as a privileged caller
enqueues the one confirmation job for Ana. -/
theorem enqueue_exactly_on_paid_witness :
    (status_update exDbPend 5 .paid ⟨5, 1, .pending, 0⟩).mail_queue =
      [⟨10, 5, "ana@example.com", "Ana", "pending", none⟩] :=
  (enqueue_exactly_on_paid exDbPend none 5 .paid ⟨5, 1, .pending, 0⟩ exCust
      (status_update exDbPend 5 .paid ⟨5, 1, .pending, 0⟩)
      (by decide) (by decide) (by decide)).trans (by decide)

/-! ### C9: validation order inside place_order -/

/-- C9: `place_order` fails fast in the stated order — authentication before
customer lookup, items one at a time in caller order, and within an item the
quantity check before the product check before the stock check; an item that
passes everything is committed before the next item is looked at. -/
theorem place_order_check_order (db : DB) (items : List ReqItem) :
    (place_order db none items = .error .Unauthenticated) ∧
    (∀ u, find_customer_by_user db u = none →
      place_order db (some u) items = .error .CustomerNotFound) ∧
    (∀ oid it rest, (it.quantity = none ∨ ∃ q, it.quantity = some q ∧ q ≤ 0) →
      place_order_items db oid (it :: rest) = .error .InvalidQuantity) ∧
    (∀ oid it rest q, it.quantity = some q → 0 < q →
      lookup_active_price db it.product_id = none →
      place_order_items db oid (it :: rest) = .error .ProductUnavailable) ∧
    (∀ oid it rest q p, it.quantity = some q → 0 < q →
      lookup_active_price db it.product_id = some p →
      reserve_stock db it.product_id q = none →
      place_order_items db oid (it :: rest) = .error .InsufficientStock) ∧
    (∀ oid it rest q p db1, it.quantity = some q → 0 < q →
      lookup_active_price db it.product_id = some p →
      reserve_stock db it.product_id q = some db1 →
      place_order_items db oid (it :: rest) =
        place_order_items (insert_order_item db1 oid (it.product_id.getD 0) q p)
          oid rest) := by
  refine ⟨rfl, fun u hcust => ?_, fun oid it rest hq => ?_,
    fun oid it rest q hq hpos hprod => ?_,
    fun oid it rest q p hq hpos hprod hstock => ?_,
    fun oid it rest q p db1 hq hpos hprod hstock => ?_⟩
  · simp [place_order, hcust]
  · rcases hq with hq | ⟨q, hq, hle⟩
    · simp [place_order_items, hq]
    · simp [place_order_items, hq, hle]
  · simp [place_order_items, hq, not_le.mpr hpos, hprod]
  · simp [place_order_items, hq, not_le.mpr hpos, hprod, hstock]
  · simp [place_order_items, hq, not_le.mpr hpos, hprod, hstock]

/-- C9 witness: the claim's example — first item names a missing product
(with a fine quantity), second item has quantity 0; the call reports the
product error of the first item, not the quantity error of the second. -/
theorem place_order_check_order_witness :
    place_order_items exDb 10 [⟨some 99, some 2⟩, ⟨some 3, some 0⟩] =
      .error .ProductUnavailable :=
  (place_order_check_order exDb []).2.2.2.1 10 ⟨some 99, some 2⟩
    [⟨some 3, some 0⟩] 2 (by decide) (by decide) (by decide)

/-! ### C10: draining the notification queue -/

/-- Marking a row by id preserves the id column. -/
theorem mark_job_ids (db : DB) (jid : Nat) (st : String) (now : Nat) :
    (mark_job db jid st now).mail_queue.map MailJob.id =
      db.mail_queue.map MailJob.id := by
  unfold mark_job
  simp only [List.map_map]
  apply List.map_congr_left
  intro j _
  by_cases hj : j.id == jid <;> simp [Function.comp, hj]

/-- Marking one id leaves lookups of a different id unchanged. -/
theorem find?_mark_other (l : List MailJob) (jid' jid : Nat) (st : String)
    (now : Nat) (hne : jid' ≠ jid) :
    (l.map (fun j => if j.id == jid'
        then { j with status := st, processed_at := some now } else j)).find?
      (fun j => j.id == jid) = l.find? (fun j => j.id == jid) := by
  induction l with
  | nil => rfl
  | cons x xs ih =>
    simp only [List.map_cons, List.find?_cons]
    by_cases hx : x.id = jid'
    · rw [if_pos (by simp [hx])]
      have h1 : ((⟨x.id, x.order_id, x.to_email, x.payload_customer_name, st,
          some now⟩ : MailJob).id == jid) = false := by simp [hx, hne]
      have h2 : (x.id == jid) = false := by simp [hx, hne]
      simp only [h1, h2, cond_false]
      exact ih
    · rw [if_neg (by simp [hx])]
      by_cases hxj : x.id == jid
      · simp only [hxj, cond_true]
      · simp only [hxj, cond_false]
        exact ih

/-- Marking the id of a member row (in a queue with unique ids) makes lookup
of that id return the marked row. -/
theorem find?_mark_self (l : List MailJob) (j : MailJob) (st : String) (now : Nat)
    (hnd : (l.map MailJob.id).Nodup) (hmem : j ∈ l) :
    (l.map (fun x => if x.id == j.id
        then { x with status := st, processed_at := some now } else x)).find?
      (fun x => x.id == j.id) =
      some { j with status := st, processed_at := some now } := by
  induction l with
  | nil => exact absurd hmem (List.not_mem_nil j)
  | cons x xs ih =>
    simp only [List.map_cons, List.find?_cons]
    rcases List.mem_cons.mp hmem with rfl | hmem'
    · rw [if_pos (by simp)]
      simp
    · have hnd' : x.id ∉ xs.map MailJob.id ∧ (xs.map MailJob.id).Nodup := by
        rw [List.map_cons, List.nodup_cons] at hnd
        exact hnd
      have hx : x.id ≠ j.id := fun he =>
        hnd'.1 (he ▸ List.mem_map_of_mem MailJob.id hmem')
      rw [if_neg (by simp [hx])]
      simp only [beq_eq_false_iff_ne.mpr hx, cond_false]
      exact ih hnd'.2 hmem'

/-- Later marks of other ids do not disturb a looked-up row. -/
theorem fold_mark_job_of (deliver : MailJob → Bool) (now : Nat) :
    ∀ (todo : List MailJob) (db : DB) (jid : Nat), (∀ x ∈ todo, x.id ≠ jid) →
      job_of (todo.foldl
        (fun acc x => mark_job acc x.id (if deliver x then "sent" else "error") now) db) jid =
      job_of db jid := by
  intro todo
  induction todo with
  | nil => intro db jid _; rfl
  | cons x xs ih =>
    intro db jid hne
    simp only [List.foldl_cons]
    rw [ih _ jid (fun y hy => hne y (List.mem_cons_of_mem x hy))]
    unfold job_of mark_job
    exact find?_mark_other db.mail_queue x.id jid _ now (hne x (List.mem_cons_self x xs))

/-- Core fold lemma for the drain loop: each job of the claimed batch ends
marked according to its own delivery outcome. -/
theorem drain_fold_mem (deliver : MailJob → Bool) (now : Nat) :
    ∀ (todo : List MailJob) (db : DB),
      (db.mail_queue.map MailJob.id).Nodup →
      (∀ j ∈ todo, j ∈ db.mail_queue) →
      (todo.map MailJob.id).Nodup →
      ∀ j ∈ todo,
        job_of (todo.foldl
          (fun acc x => mark_job acc x.id (if deliver x then "sent" else "error") now) db) j.id =
        some { j with status := if deliver j then "sent" else "error",
                      processed_at := some now } := by
  intro todo
  induction todo with
  | nil => intro db _ _ _ j hj; exact absurd hj (List.not_mem_nil j)
  | cons j0 rest ih =>
    intro db hnd hmem hndt j hj
    have hid0 : ∀ x ∈ rest, x.id ≠ j0.id := by
      intro x hx he
      simp only [List.map_cons, List.nodup_cons] at hndt
      exact hndt.1 (he ▸ List.mem_map_of_mem MailJob.id hx)
    have hnd1 : ((mark_job db j0.id (if deliver j0 then "sent" else "error") now).mail_queue.map
        MailJob.id).Nodup := by
      rw [mark_job_ids]; exact hnd
    have hmem1 : ∀ x ∈ rest,
        x ∈ (mark_job db j0.id (if deliver j0 then "sent" else "error") now).mail_queue := by
      intro x hx
      unfold mark_job
      have : (if x.id == j0.id
          then { x with status := if deliver j0 then "sent" else "error",
                        processed_at := some now } else x) = x := by
        rw [if_neg (by simp [hid0 x hx])]
      exact this ▸ List.mem_map_of_mem _ (hmem x (List.mem_cons_of_mem j0 hx))
    simp only [List.foldl_cons]
    rcases List.mem_cons.mp hj with rfl | hj'
    · rw [fold_mark_job_of deliver now rest _ j.id hid0]
      unfold job_of mark_job
      exact find?_mark_self db.mail_queue j _ now hnd (hmem j (List.mem_cons_self j rest))
    · exact ih _ hnd1 hmem1 (by simpa using (List.nodup_cons.mp (by simpa using hndt)).2) j hj'

/-- C10: the drain claims at most 10 pending jobs, and each claimed job —
independently of the others' outcomes — ends `sent` on delivery success or
`error` on delivery failure, with its processed timestamp set. -/
theorem drain_batch (deliver : MailJob → Bool) (now : Nat) (db : DB)
    (hnd : (db.mail_queue.map MailJob.id).Nodup) :
    (claimed_jobs db).length ≤ 10 ∧
    ∀ j ∈ claimed_jobs db,
      job_of (drain_mail_queue deliver now db) j.id =
        some { j with status := if deliver j then "sent" else "error",
                      processed_at := some now } := by
  constructor
  · unfold claimed_jobs
    rw [List.length_take]
    exact min_le_left _ _
  · intro j hj
    unfold drain_mail_queue
    have hsub : List.Sublist (claimed_jobs db) db.mail_queue :=
      (List.take_sublist _ _).trans (List.filter_sublist _)
    exact drain_fold_mem deliver now (claimed_jobs db) db hnd
      (fun x hx => List.mem_of_mem_filter (List.mem_of_mem_take hx))
      (hnd.sublist (hsub.map MailJob.id)) j hj

/-- C10 witness: of the two pending jobs in `exDbQueue`, job 1 delivers and
is marked sent while job 3 fails delivery and is marked `error`; the failure
of 3 does not prevent 1 from being processed (both carry the timestamp). -/
theorem drain_batch_witness :
    job_of (drain_mail_queue (fun j => j.id == 1) 42 exDbQueue) 3 =
      some ⟨3, 5, "a@example.com", "Ana", "error", some 42⟩ ∧
    job_of (drain_mail_queue (fun j => j.id == 1) 42 exDbQueue) 1 =
      some ⟨1, 5, "a@example.com", "Ana", "sent", some 42⟩ :=
  ⟨((drain_batch (fun j => j.id == 1) 42 exDbQueue (by decide)).2
      ⟨3, 5, "a@example.com", "Ana", "pending", none⟩ (by decide)).trans (by decide),
   ((drain_batch (fun j => j.id == 1) 42 exDbQueue (by decide)).2
      ⟨1, 5, "a@example.com", "Ana", "pending", none⟩ (by decide)).trans (by decide)⟩

/-! ### C1: the stock invariant -/

/-- A successful conditional stock update preserves the id column. -/
theorem reserve_stock_ids (db db1 : DB) (pid : Option Nat) (q : Int)
    (h : reserve_stock db pid q = some db1) :
    db1.products.map Product.id = db.products.map Product.id := by
  unfold reserve_stock at h
  split at h
  · injection h with h1
    subst h1
    simp only [List.map_map]
    apply List.map_congr_left
    intro p _
    by_cases hp : stock_hit pid q p <;> simp [Function.comp, hp]
  · exact Option.noConfusion h

/-- A successful conditional stock update keeps all stocks nonnegative:
every decremented row passed its own `stock >= qty` test. -/
theorem reserve_stock_nonneg (db db1 : DB) (pid : Option Nat) (q : Int)
    (h : reserve_stock db pid q = some db1) (hnn : stocks_nonneg db) :
    stocks_nonneg db1 := by
  unfold reserve_stock at h
  split at h
  · injection h with h1
    subst h1
    intro p1 hp1
    simp only [List.mem_map] at hp1
    obtain ⟨p, hp, hpe⟩ := hp1
    subst hpe
    by_cases hhit : stock_hit pid q p
    · rw [if_pos hhit]
      have : decide (q ≤ p.stock) = true := by
        unfold stock_hit at hhit
        exact (Bool.and_eq_true _ _ |>.mp hhit).2
      have hq : q ≤ p.stock := of_decide_eq_true this
      simpa using sub_nonneg.mpr hq
    · rw [if_neg hhit]
      exact hnn p hp
  · exact Option.noConfusion h

/-- Rows of a different product id are untouched by the conditional update. -/
theorem find?_reserve_other (l : List Product) (j pid : Nat) (q : Int)
    (hne : pid ≠ j) :
    (l.map (fun p => if stock_hit (some j) q p
        then { p with stock := p.stock - q } else p)).find? (fun p => p.id == pid) =
      l.find? (fun p => p.id == pid) := by
  induction l with
  | nil => rfl
  | cons x xs ih =>
    simp only [List.map_cons, List.find?_cons]
    by_cases hhit : stock_hit (some j) q x
    · have hxj : x.id = j := by
        unfold stock_hit at hhit
        have := (Bool.and_eq_true _ _ |>.mp hhit).1
        simpa using this
      have hx : (x.id == pid) = false := by
        rw [hxj]
        exact beq_eq_false_iff_ne.mpr (fun h => hne h.symm)
      rw [if_pos hhit]
      simp only [hx, cond_false]
      exact ih
    · rw [if_neg hhit]
      by_cases hxp : x.id == pid
      · simp only [hxp, cond_true]
      · simp only [hxp, cond_false]
        exact ih

/-- In a table with unique product ids, a successful conditional update
decrements the looked-up stock of the targeted product by exactly `q`. -/
theorem find?_reserve_self (l : List Product) (j : Nat) (q : Int)
    (hnd : (l.map Product.id).Nodup)
    (hany : l.any (stock_hit (some j) q) = true) :
    ((l.map (fun p => if stock_hit (some j) q p
        then { p with stock := p.stock - q } else p)).find?
          (fun p => p.id == j)).map (·.stock) =
      ((l.find? (fun p => p.id == j)).map (·.stock)).map (fun s => s - q) := by
  induction l with
  | nil => exact absurd hany (by simp)
  | cons x xs ih =>
    have hnd' : x.id ∉ xs.map Product.id ∧ (xs.map Product.id).Nodup := by
      rw [List.map_cons, List.nodup_cons] at hnd
      exact hnd
    simp only [List.map_cons, List.find?_cons]
    by_cases hxj : x.id = j
    · have hhit : stock_hit (some j) q x = true := by
        rcases (List.any_eq_true.mp hany) with ⟨y, hy, hyhit⟩
        rcases List.mem_cons.mp hy with rfl | hy'
        · exact hyhit
        · have hyj : y.id = j := by
            unfold stock_hit at hyhit
            have := (Bool.and_eq_true _ _ |>.mp hyhit).1
            simpa using this
          exact absurd (hxj ▸ hyj ▸ List.mem_map_of_mem Product.id hy') hnd'.1
      rw [if_pos hhit]
      simp [hxj]
    · rw [if_neg (by unfold stock_hit; simp [hxj])]
      have hx : (x.id == j) = false := by simp [hxj]
      simp only [hx, cond_false]
      have hany' : xs.any (stock_hit (some j) q) = true := by
        rcases (List.any_eq_true.mp hany) with ⟨y, hy, hyhit⟩
        rcases List.mem_cons.mp hy with rfl | hy'
        · exfalso
          apply hxj
          unfold stock_hit at hyhit
          have h1 := (Bool.and_eq_true _ _ |>.mp hyhit).1
          simpa using h1
        · exact List.any_eq_true.mpr ⟨y, hy', hyhit⟩
      exact ih hnd'.2 hany'

/-- Effect of a successful reservation on looked-up stocks: the targeted
product's stock drops by exactly `q`, all other products are untouched. -/
theorem reserve_stock_of (db db1 : DB) (j : Nat) (q : Int)
    (hnd : (db.products.map Product.id).Nodup)
    (h : reserve_stock db (some j) q = some db1) :
    ∀ pid, stock_of db1 pid =
      if pid = j then (stock_of db pid).map (fun s => s - q) else stock_of db pid := by
  unfold reserve_stock at h
  split at h
  · rename_i hany
    injection h with h1
    subst h1
    intro pid
    by_cases hpj : pid = j
    · subst hpj
      rw [if_pos rfl]
      exact find?_reserve_self db.products pid q hnd hany
    · rw [if_neg hpj]
      unfold stock_of
      rw [find?_reserve_other db.products j pid q hpj]
  · exact Option.noConfusion h

/-- Inserting an order item does not touch the products table. -/
theorem insert_order_item_products (db : DB) (oid pid : Nat) (q pr : Int) :
    (insert_order_item db oid pid q pr).products = db.products := rfl

/-- A successful active-price lookup pins the requested product id. -/
theorem lookup_active_price_some_pid (db : DB) (pid : Option Nat) (pr : Int)
    (h : lookup_active_price db pid = some pr) : ∃ j, pid = some j := by
  unfold lookup_active_price at h
  cases hf : db.products.find? (fun p => some p.id == pid && p.active) with
  | none => rw [hf] at h; exact Option.noConfusion h
  | some p =>
    have hpred := List.find?_some hf
    have h1 := (Bool.and_eq_true _ _ |>.mp hpred).1
    exact ⟨p.id, (eq_of_beq h1).symm⟩

/-- The item loop of `place_order` preserves the product-id column and stock
nonnegativity, and decrements each product's stock by exactly the summed
requested quantity of the processed items. -/
theorem place_order_items_stock (items : List ReqItem) :
    ∀ (db db1 : DB) (oid : Nat), place_order_items db oid items = .ok db1 →
      (db.products.map Product.id).Nodup →
      db1.products.map Product.id = db.products.map Product.id ∧
      (stocks_nonneg db → stocks_nonneg db1) ∧
      ∀ pid, stock_of db1 pid =
        (stock_of db pid).map (fun s => s - reserved_for pid items) := by
  induction items with
  | nil =>
    intro db db1 oid h _
    injection h with h1
    subst h1
    refine ⟨rfl, fun hnn => hnn, fun pid => ?_⟩
    cases stock_of db pid <;> simp [reserved_for]
  | cons it rest ih =>
    intro db db1 oid h hnd
    unfold place_order_items at h
    split at h
    · exact Except.noConfusion h
    · rename_i q hq
      split at h
      · exact Except.noConfusion h
      · rename_i hle
        split at h
        · exact Except.noConfusion h
        · rename_i price hlook
          split at h
          · exact Except.noConfusion h
          · rename_i dbR hres
            obtain ⟨j, hj⟩ := lookup_active_price_some_pid db it.product_id price hlook
            have hins : (insert_order_item dbR oid (it.product_id.getD 0) q price).products =
                dbR.products := rfl
            have hidsR : dbR.products.map Product.id = db.products.map Product.id :=
              reserve_stock_ids db dbR it.product_id q hres
            have hndR : ((insert_order_item dbR oid (it.product_id.getD 0) q
                price).products.map Product.id).Nodup := by
              rw [hins, hidsR]; exact hnd
            obtain ⟨hids1, hnn1, hstock1⟩ :=
              ih (insert_order_item dbR oid (it.product_id.getD 0) q price) db1 oid h hndR
            refine ⟨by rw [hids1, hins, hidsR], ?_, ?_⟩
            · intro hnn
              apply hnn1
              have hnnR : stocks_nonneg dbR :=
                reserve_stock_nonneg db dbR it.product_id q hres hnn
              unfold stocks_nonneg at hnnR ⊢
              rw [hins]
              exact hnnR
            · intro pid
              rw [hstock1 pid]
              have hsi : stock_of (insert_order_item dbR oid (it.product_id.getD 0) q price) pid =
                  stock_of dbR pid := rfl
              rw [hsi]
              have hres' : reserve_stock db (some j) q = some dbR := hj ▸ hres
              rw [reserve_stock_of db dbR j q hnd hres' pid]
              by_cases hpj : pid = j
              · rw [if_pos hpj]
                have hcond : (it.product_id == some pid) = true := by
                  rw [hj, hpj]
                  simp
                have hri : reserved_for pid (it :: rest) = q + reserved_for pid rest := by
                  unfold reserved_for
                  rw [List.filter_cons, if_pos hcond]
                  simp [hq]
                rw [hri]
                cases stock_of db pid with
                | none => rfl
                | some v => simp [sub_sub]
              · rw [if_neg hpj]
                have hcond : (it.product_id == some pid) = false := by
                  rw [hj]
                  simp only [beq_eq_false_iff_ne, ne_eq, Option.some.injEq]
                  exact fun he => hpj he.symm
                have hri : reserved_for pid (it :: rest) = reserved_for pid rest := by
                  unfold reserved_for
                  rw [List.filter_cons, if_neg (by rw [hcond]; exact Bool.false_ne_true)]
                rw [hri]

/-- A successful `place_order` call preserves product ids and stock
nonnegativity and decrements each product by its summed requested
quantity. -/
theorem place_order_ok_stock (db db1 : DB) (uid : Option Nat)
    (items : List ReqItem) (oid : Nat)
    (h : place_order db uid items = .ok (db1, oid))
    (hnd : (db.products.map Product.id).Nodup) :
    db1.products.map Product.id = db.products.map Product.id ∧
    (stocks_nonneg db → stocks_nonneg db1) ∧
    ∀ pid, stock_of db1 pid =
      (stock_of db pid).map (fun s => s - reserved_for pid items) := by
  unfold place_order at h
  split at h
  · exact Except.noConfusion h
  · split at h
    · exact Except.noConfusion h
    · rename_i c hcu
      split at h
      · exact Except.noConfusion h
      · rename_i db2 hloop
        injection h with h1
        injection h1 with h2 h3
        subst h2
        exact place_order_items_stock items
          { db with
              orders := db.orders ++ [⟨db.next_id, c.id, .pending, 0⟩],
              next_id := db.next_id + 1 }
          db2 db.next_id hloop hnd

/-- A failed `place_order` transaction leaves the state unchanged. -/
theorem place_order_txn_fst_error (db : DB) (uid : Option Nat)
    (items : List ReqItem) (e : Err)
    (h : place_order db uid items = .error e) :
    place_order_txn db uid items = (db, .error e) := by
  unfold place_order_txn
  rw [h]

/-- C1: the stock invariant — over any sequence of `place_order` calls
against a product with initial stock `S`, the final stock equals `S` minus
the quantities reserved by the successful calls, and never goes negative. -/
theorem stock_never_negative (calls : List (Option Nat × List ReqItem)) :
    ∀ (db : DB) (pid : Nat) (S : Int),
      (db.products.map Product.id).Nodup →
      stocks_nonneg db →
      stock_of db pid = some S →
      stock_of (run_orders db calls) pid =
        some (S - successful_reserved db calls pid) ∧
      0 ≤ S - successful_reserved db calls pid := by
  induction calls with
  | nil =>
    intro db pid S hnd hnn hS
    have h0 : (0 : Int) ≤ S := by
      unfold stock_of at hS
      cases hf : db.products.find? (fun p => p.id == pid) with
      | none => rw [hf] at hS; exact Option.noConfusion hS
      | some p =>
        rw [hf] at hS
        injection hS with h1
        exact h1 ▸ hnn p (List.mem_of_find?_eq_some hf)
    constructor
    · show stock_of db pid = some (S - successful_reserved db [] pid)
      rw [hS]
      simp [successful_reserved]
    · simpa [successful_reserved] using h0
  | cons call rest ih =>
    obtain ⟨uid, items⟩ := call
    intro db pid S hnd hnn hS
    have hrun : run_orders db ((uid, items) :: rest) =
        run_orders (place_order_txn db uid items).1 rest := rfl
    cases hpo : place_order db uid items with
    | error e =>
      have htx : place_order_txn db uid items = (db, .error e) :=
        place_order_txn_fst_error db uid items e hpo
      have hsr : successful_reserved db ((uid, items) :: rest) pid =
          successful_reserved db rest pid := by
        show (match place_order_txn db uid items with
          | (db1, .ok _) => reserved_for pid items + successful_reserved db1 rest pid
          | (db1, .error _) => successful_reserved db1 rest pid) =
          successful_reserved db rest pid
        rw [htx]
      rw [hrun, htx, hsr]
      exact ih db pid S hnd hnn hS
    | ok pr =>
      obtain ⟨dbn, oid⟩ := pr
      have htx : place_order_txn db uid items = (dbn, .ok oid) := by
        unfold place_order_txn
        rw [hpo]
      obtain ⟨hids, hnn', hstock⟩ := place_order_ok_stock db dbn uid items oid hpo hnd
      have hS' : stock_of dbn pid = some (S - reserved_for pid items) := by
        rw [hstock pid, hS]
        rfl
      have hnd' : (dbn.products.map Product.id).Nodup := by rw [hids]; exact hnd
      obtain ⟨hfin, hpos⟩ :=
        ih dbn pid (S - reserved_for pid items) hnd' (hnn' hnn) hS'
      have hsr : successful_reserved db ((uid, items) :: rest) pid =
          reserved_for pid items + successful_reserved dbn rest pid := by
        show (match place_order_txn db uid items with
          | (db1, .ok _) => reserved_for pid items + successful_reserved db1 rest pid
          | (db1, .error _) => successful_reserved db1 rest pid) =
          reserved_for pid items + successful_reserved dbn rest pid
        rw [htx]
      rw [hrun, htx, hsr]
      constructor
      · rw [hfin]
        congr 1
        rw [sub_add_eq_sub_sub]
      · rw [sub_add_eq_sub_sub]
        exact hpos

/-- C1 witness: against product 2 with stock 5, a call reserving 2 succeeds
and a later call asking 9 fails; the final stock is 5 − 2 = 3 ≥ 0. -/
theorem stock_never_negative_witness :
    stock_of (run_orders exDb [(some 7, [⟨some 2, some 2⟩]), (some 7, [⟨some 2, some 9⟩])]) 2 =
      some (5 - successful_reserved exDb
        [(some 7, [⟨some 2, some 2⟩]), (some 7, [⟨some 2, some 9⟩])] 2) ∧
    0 ≤ 5 - successful_reserved exDb
      [(some 7, [⟨some 2, some 2⟩]), (some 7, [⟨some 2, some 9⟩])] 2 :=
  stock_never_negative [(some 7, [⟨some 2, some 2⟩]), (some 7, [⟨some 2, some 9⟩])]
    exDb 2 5 (by decide) (by unfold stocks_nonneg; decide) (by decide)

/-! ### C6: the stored total always matches the computed total -/

/-- Every order row's id is below the fresh-id source (primary-key
freshness of `gen_random_uuid()`). -/
def orders_fresh (db : DB) : Prop :=
  ∀ o ∈ db.orders, o.id < db.next_id

/-- The `order_items.order_id references orders(id)` foreign key. -/
def items_fk (db : DB) : Prop :=
  ∀ oi ∈ db.order_items, oi.order_id ∈ db.orders.map Order.id

/-- The well-formedness carried through every public operation. -/
def DBInv (db : DB) : Prop :=
  totals_ok db ∧ orders_fresh db ∧ items_fk db

/-- One step of the public interface: the two RPCs, the (hypothetical)
trigger-guarded line-item mutations — an insert must satisfy the foreign
key — and the queue drain. -/
inductive Step : DB → DB → Prop
  | place (uid : Option Nat) (items : List ReqItem) (db : DB) :
      Step db (place_order_txn db uid items).1
  | set_status (uid : Option Nat) (oid : Nat) (next : OrderStatus) (db : DB) :
      Step db (set_order_status_txn db uid oid next).1
  | ins_item (db : DB) (oid pid : Nat) (qty price : Int)
      (hfk : oid ∈ db.orders.map Order.id) :
      Step db (insert_order_item db oid pid qty price)
  | upd_item (db : DB) (iid : Nat) (qty : Int) :
      Step db (update_order_item_qty db iid qty)
  | del_item (db : DB) (iid : Nat) :
      Step db (delete_order_item db iid)
  | drain (deliver : MailJob → Bool) (now : Nat) (db : DB) :
      Step db (drain_mail_queue deliver now db)

/-- `compute_order_total` reads only the items table. -/
theorem compute_order_total_ext (db db' : DB)
    (h : db'.order_items = db.order_items) (oid : Nat) :
    compute_order_total db' oid = compute_order_total db oid := by
  unfold compute_order_total
  rw [h]

/-- Folding the total trigger over a list of order ids: items and fresh-id
source untouched, and exactly the named orders re-totalled. -/
theorem recompute_fold_spec (oids : List Nat) : ∀ db : DB,
    (oids.foldl update_order_total db).order_items = db.order_items ∧
    (oids.foldl update_order_total db).next_id = db.next_id ∧
    (oids.foldl update_order_total db).orders =
      db.orders.map (fun o => if o.id ∈ oids
        then { o with total_cents := compute_order_total db o.id } else o) := by
  induction oids with
  | nil =>
    intro db
    refine ⟨rfl, rfl, ?_⟩
    have h0 : ∀ o ∈ db.orders,
        (if o.id ∈ ([] : List Nat)
          then { o with total_cents := compute_order_total db o.id } else o) = o := by
      intro o _
      rw [if_neg (List.not_mem_nil o.id)]
    rw [List.map_congr_left h0, List.map_id']
    rfl
  | cons a rest ih =>
    intro db
    have hfold : ((a :: rest).foldl update_order_total db) =
        rest.foldl update_order_total (update_order_total db a) := rfl
    obtain ⟨h1, h2, h3⟩ := ih (update_order_total db a)
    have hcomp : ∀ oid, compute_order_total (update_order_total db a) oid =
        compute_order_total db oid :=
      compute_order_total_ext db _ rfl
    refine ⟨by rw [hfold, h1]; rfl, by rw [hfold, h2]; rfl, ?_⟩
    rw [hfold, h3]
    show (db.orders.map (fun o => if o.id == a
        then { o with total_cents := compute_order_total db o.id } else o)).map _ =
      _
    rw [List.map_map]
    apply List.map_congr_left
    intro o _
    simp only [Function.comp]
    by_cases ha : o.id = a
    · by_cases hr : o.id ∈ rest
      · simp [ha, hr, hcomp, List.mem_cons]
      · simp [ha, hr, hcomp, List.mem_cons]
    · by_cases hr : o.id ∈ rest
      · simp [ha, hr, hcomp, List.mem_cons]
      · simp [ha, hr, List.mem_cons]

/-- Re-totalling preserves the total invariant provided the item mutation
from `db0` to `db1` only affected orders in `oids`. -/
theorem totals_ok_recompute (db0 db1 : DB) (oids : List Nat)
    (horders : db1.orders = db0.orders)
    (hcomp : ∀ oid, oid ∉ oids →
      compute_order_total db1 oid = compute_order_total db0 oid)
    (htot : totals_ok db0) :
    totals_ok (oids.foldl update_order_total db1) := by
  obtain ⟨h1, _, h3⟩ := recompute_fold_spec oids db1
  intro o' ho'
  rw [h3, horders] at ho'
  obtain ⟨o, ho, hoe⟩ := List.mem_map.mp ho'
  have hcfin : compute_order_total (oids.foldl update_order_total db1) o'.id =
      compute_order_total db1 o'.id :=
    compute_order_total_ext db1 _ h1 o'.id
  rw [hcfin]
  by_cases hmem : o.id ∈ oids
  · rw [if_pos hmem] at hoe
    subst hoe
    rfl
  · rw [if_neg hmem] at hoe
    subst hoe
    rw [hcomp o.id hmem]
    exact htot o ho

/-- Item rows are kept by a row map that fixes the rows of one order. -/
theorem filter_map_fixed (l : List OrderItem) (f : OrderItem → OrderItem)
    (oid : Nat) (hpres : ∀ r, (f r).order_id = r.order_id)
    (hfix : ∀ r ∈ l, r.order_id = oid → f r = r) :
    (l.map f).filter (fun oi => oi.order_id == oid) =
      l.filter (fun oi => oi.order_id == oid) := by
  induction l with
  | nil => rfl
  | cons r t ih =>
    simp only [List.map_cons, List.filter_cons]
    have hpr : ((f r).order_id == oid) = (r.order_id == oid) := by rw [hpres r]
    by_cases hr : r.order_id = oid
    · have hb : (r.order_id == oid) = true := by simp [hr]
      rw [hpr, hb, if_pos rfl, if_pos rfl,
        hfix r (List.mem_cons_self r t) hr,
        ih (fun x hx hox => hfix x (List.mem_cons_of_mem r hx) hox)]
    · have hb : (r.order_id == oid) = false := by simp [hr]
      rw [hpr, hb]
      simp only [Bool.false_eq_true, if_false]
      exact ih (fun x hx hox => hfix x (List.mem_cons_of_mem r hx) hox)

/-- Item rows of one order are kept by deleting rows of other orders. -/
theorem filter_filter_removed (l : List OrderItem) (iid oid : Nat)
    (hrm : ∀ r ∈ l, (r.id == iid) = true → r.order_id ≠ oid) :
    (l.filter (fun oi => !(oi.id == iid))).filter (fun oi => oi.order_id == oid) =
      l.filter (fun oi => oi.order_id == oid) := by
  induction l with
  | nil => rfl
  | cons r t ih =>
    simp only [List.filter_cons]
    by_cases hi : r.id == iid
    · have hro : (r.order_id == oid) = false := by
        simp [hrm r (List.mem_cons_self r t) hi]
      rw [hi]
      simp only [Bool.not_true, Bool.false_eq_true, if_false, hro]
      exact ih (fun x hx hix => hrm x (List.mem_cons_of_mem r hx) hix)
    · rw [Bool.not_eq_true] at hi
      rw [hi]
      simp only [Bool.not_false, if_true, List.filter_cons]
      by_cases hro : r.order_id == oid
      · rw [hro]
        simp only [if_true]
        rw [ih (fun x hx hix => hrm x (List.mem_cons_of_mem r hx) hix)]
      · rw [Bool.not_eq_true] at hro
        rw [hro]
        simp only [Bool.false_eq_true, if_false]
        exact ih (fun x hx hix => hrm x (List.mem_cons_of_mem r hx) hix)

/-- The total trigger preserves the order-id column. -/
theorem update_order_total_orders_ids (db : DB) (oid : Nat) :
    (update_order_total db oid).orders.map Order.id = db.orders.map Order.id := by
  unfold update_order_total
  simp only [List.map_map]
  apply List.map_congr_left
  intro o _
  by_cases h : o.id == oid <;> simp [Function.comp, h]

/-- A successful reservation touches only the products table. -/
theorem reserve_stock_frame (db db1 : DB) (pid : Option Nat) (q : Int)
    (h : reserve_stock db pid q = some db1) :
    db1.orders = db.orders ∧ db1.order_items = db.order_items ∧
      db1.next_id = db.next_id ∧ db1.customers = db.customers ∧
      db1.mail_queue = db.mail_queue := by
  unfold reserve_stock at h
  split at h
  · injection h with h1
    subst h1
    exact ⟨rfl, rfl, rfl, rfl, rfl⟩
  · exact Option.noConfusion h

/-- The confirmation trigger touches only the queue and the id source, which
it never decreases. -/
theorem enqueue_order_confirmation_frame (db : DB) (o : Order) (st : OrderStatus) :
    (enqueue_order_confirmation db o st).orders = db.orders ∧
    (enqueue_order_confirmation db o st).order_items = db.order_items ∧
    db.next_id ≤ (enqueue_order_confirmation db o st).next_id := by
  unfold enqueue_order_confirmation
  split
  · split
    · exact ⟨rfl, rfl, Nat.le_succ _⟩
    · exact ⟨rfl, rfl, Nat.le_refl _⟩
  · exact ⟨rfl, rfl, Nat.le_refl _⟩

/-- Inserting an item row for an existing order preserves the database
invariant and the order-id column. -/
theorem insert_order_item_inv (db : DB) (oid pid : Nat) (q pr : Int)
    (hinv : DBInv db) (hoid : oid ∈ db.orders.map Order.id) :
    DBInv (insert_order_item db oid pid q pr) ∧
    (insert_order_item db oid pid q pr).orders.map Order.id =
      db.orders.map Order.id := by
  obtain ⟨htot, hfr, hfk⟩ := hinv
  have hids : (insert_order_item db oid pid q pr).orders.map Order.id =
      db.orders.map Order.id := update_order_total_orders_ids _ oid
  refine ⟨⟨?_, ?_, ?_⟩, hids⟩
  · -- totals
    have hcomp : ∀ oid', oid' ∉ [oid] →
        compute_order_total
          { db with
              order_items := db.order_items ++ [⟨db.next_id, oid, pid, q, pr⟩],
              next_id := db.next_id + 1 }
          oid' = compute_order_total db oid' := by
      intro oid' hnm
      have hne : oid ≠ oid' := fun he => hnm (he ▸ List.mem_singleton_self oid')
      have hone : (([(⟨db.next_id, oid, pid, q, pr⟩ : OrderItem)]).filter
          (fun oi => oi.order_id == oid')) = [] := by
        simp [hne]
      show (((db.order_items ++ [(⟨db.next_id, oid, pid, q, pr⟩ : OrderItem)]).filter
        (fun oi => oi.order_id == oid')).map
          (fun oi => oi.quantity * oi.unit_price_cents)).sum = compute_order_total db oid'
      rw [List.filter_append, hone, List.append_nil]
      rfl
    exact totals_ok_recompute db
      { db with
          order_items := db.order_items ++ [⟨db.next_id, oid, pid, q, pr⟩],
          next_id := db.next_id + 1 }
      [oid] rfl hcomp htot
  · -- freshness
    intro o' ho'
    unfold insert_order_item update_order_total at ho'
    simp only [List.mem_map] at ho'
    obtain ⟨o, ho, hoe⟩ := ho'
    have hid : o'.id = o.id := by
      subst hoe
      by_cases h : o.id == oid <;> simp [h]
    show o'.id < (insert_order_item db oid pid q pr).next_id
    have hnx : (insert_order_item db oid pid q pr).next_id = db.next_id + 1 := rfl
    rw [hnx, hid]
    exact Nat.lt_succ_of_lt (hfr o ho)
  · -- foreign key
    intro oi hoi
    have hitems : (insert_order_item db oid pid q pr).order_items =
        db.order_items ++ [⟨db.next_id, oid, pid, q, pr⟩] := rfl
    rw [hitems] at hoi
    rw [hids]
    rcases List.mem_append.mp hoi with hold | hnew
    · exact hfk oi hold
    · rw [List.mem_singleton.mp hnew]
      exact hoid

/-- The item loop preserves the database invariant when run against an
existing order. -/
theorem place_order_items_inv (items : List ReqItem) :
    ∀ (db db1 : DB) (oid : Nat), place_order_items db oid items = .ok db1 →
      DBInv db → oid ∈ db.orders.map Order.id → DBInv db1 := by
  induction items with
  | nil =>
    intro db db1 oid h hinv _
    injection h with h1
    subst h1
    exact hinv
  | cons it rest ih =>
    intro db db1 oid h hinv hoid
    unfold place_order_items at h
    split at h
    · exact Except.noConfusion h
    · rename_i q hq
      split at h
      · exact Except.noConfusion h
      · rename_i hle
        split at h
        · exact Except.noConfusion h
        · rename_i price hlook
          split at h
          · exact Except.noConfusion h
          · rename_i dbR hres
            obtain ⟨hord, hitm, hnxt, _, _⟩ :=
              reserve_stock_frame db dbR it.product_id q hres
            obtain ⟨htot, hfr, hfk⟩ := hinv
            have hinvR : DBInv dbR := by
              refine ⟨?_, ?_, ?_⟩
              · intro o ho
                rw [hord] at ho
                rw [compute_order_total_ext db dbR hitm o.id]
                exact htot o ho
              · intro o ho
                rw [hord] at ho
                rw [hnxt]
                exact hfr o ho
              · intro oi hoi
                rw [hitm] at hoi
                rw [hord]
                exact hfk oi hoi
            have hoidR : oid ∈ dbR.orders.map Order.id := by rw [hord]; exact hoid
            obtain ⟨hinvI, hidsI⟩ :=
              insert_order_item_inv dbR oid (it.product_id.getD 0) q price hinvR hoidR
            exact ih _ db1 oid h hinvI (by rw [hidsI, hord]; exact hoid)

/-- A successful `place_order` call preserves the database invariant. -/
theorem place_order_ok_inv (db db1 : DB) (uid : Option Nat)
    (items : List ReqItem) (oid : Nat)
    (h : place_order db uid items = .ok (db1, oid)) (hinv : DBInv db) :
    DBInv db1 := by
  obtain ⟨htot, hfr, hfk⟩ := hinv
  unfold place_order at h
  split at h
  · exact Except.noConfusion h
  · split at h
    · exact Except.noConfusion h
    · rename_i c hcu
      split at h
      · exact Except.noConfusion h
      · rename_i db2 hloop
        injection h with h1
        injection h1 with h2 h3
        subst h2
        have hempty : db.order_items.filter (fun oi => oi.order_id == db.next_id) = [] := by
          rw [List.filter_eq_nil_iff]
          intro oi hoi
          have := hfk oi hoi
          obtain ⟨o, ho, hoe⟩ := List.mem_map.mp this
          have hlt : oi.order_id < db.next_id := hoe ▸ hfr o ho
          simp only [beq_iff_eq]
          exact Nat.ne_of_lt hlt
        have hzero : compute_order_total db db.next_id = 0 := by
          unfold compute_order_total
          rw [hempty]
          rfl
        have hinv' : DBInv
            { db with
                orders := db.orders ++ [(⟨db.next_id, c.id, .pending, 0⟩ : Order)],
                next_id := db.next_id + 1 } := by
          refine ⟨?_, ?_, ?_⟩
          · intro o ho
            rcases List.mem_append.mp ho with hold | hnew
            · exact htot o hold
            · rw [List.mem_singleton.mp hnew]
              exact hzero.symm
          · intro o ho
            rcases List.mem_append.mp ho with hold | hnew
            · exact Nat.lt_succ_of_lt (hfr o hold)
            · rw [List.mem_singleton.mp hnew]
              exact Nat.lt_succ_self _
          · intro oi hoi
            rw [List.map_append]
            exact List.mem_append_left _ (hfk oi hoi)
        have hoid' : db.next_id ∈
            ({ db with
                orders := db.orders ++ [(⟨db.next_id, c.id, .pending, 0⟩ : Order)],
                next_id := db.next_id + 1 } : DB).orders.map Order.id := by
          show db.next_id ∈ (db.orders ++ [(⟨db.next_id, c.id, .pending, 0⟩ : Order)]).map Order.id
          rw [List.map_append]
          exact List.mem_append_right _ (List.mem_singleton_self _)
        exact place_order_items_inv items _ db2 db.next_id hloop hinv' hoid'

/-- Folding the total trigger preserves the order-id column. -/
theorem recompute_fold_orders_ids (oids : List Nat) (db : DB) :
    (oids.foldl update_order_total db).orders.map Order.id =
      db.orders.map Order.id := by
  obtain ⟨_, _, h3⟩ := recompute_fold_spec oids db
  rw [h3, List.map_map]
  apply List.map_congr_left
  intro o _
  by_cases h : o.id ∈ oids <;> simp [Function.comp, h]

/-- Folding the total trigger preserves order-id freshness. -/
theorem recompute_fold_fresh (oids : List Nat) (db : DB)
    (hfr : orders_fresh db) :
    orders_fresh (oids.foldl update_order_total db) := by
  obtain ⟨_, h2, h3⟩ := recompute_fold_spec oids db
  intro o' ho'
  rw [h3] at ho'
  obtain ⟨o, ho, hoe⟩ := List.mem_map.mp ho'
  have hid : o'.id = o.id := by
    subst hoe
    by_cases h : o.id ∈ oids <;> simp [h]
  rw [h2, hid]
  exact hfr o ho

/-- Folding the total trigger preserves the foreign key. -/
theorem recompute_fold_fk (oids : List Nat) (db : DB)
    (hfk : items_fk db) :
    items_fk (oids.foldl update_order_total db) := by
  obtain ⟨h1, _, _⟩ := recompute_fold_spec oids db
  intro oi hoi
  rw [h1] at hoi
  rw [recompute_fold_orders_ids]
  exact hfk oi hoi

/-- The quantity update leaves the items of unaffected orders unchanged. -/
theorem compute_after_qty_map (db : DB) (iid : Nat) (qty : Int) (oid' : Nat)
    (hnm : oid' ∉ (db.order_items.filter (fun oi => oi.id == iid)).map
      (fun oi => oi.order_id)) :
    compute_order_total
      { db with order_items := (db.order_items.map
          (fun oi => if oi.id == iid then { oi with quantity := qty } else oi)) }
      oid' = compute_order_total db oid' := by
  have hpres : ∀ r : OrderItem,
      ((if r.id == iid then { r with quantity := qty } else r) : OrderItem).order_id =
        r.order_id := by
    intro r
    by_cases h : r.id == iid <;> simp [h]
  have hfix : ∀ r ∈ db.order_items, r.order_id = oid' →
      (if r.id == iid then { r with quantity := qty } else r) = r := by
    intro r hr hro
    by_cases hri : r.id == iid
    · exfalso
      apply hnm
      rw [← hro]
      exact List.mem_map_of_mem _ (List.mem_filter.mpr ⟨hr, hri⟩)
    · rw [if_neg (by rw [Bool.not_eq_true] at hri; rw [hri]; exact Bool.false_ne_true)]
  show (((db.order_items.map
      (fun oi => if oi.id == iid then { oi with quantity := qty } else oi)).filter
        (fun oi => oi.order_id == oid')).map
          (fun oi => oi.quantity * oi.unit_price_cents)).sum =
    compute_order_total db oid'
  rw [filter_map_fixed db.order_items _ oid' hpres hfix]
  rfl

/-- The row delete leaves the items of unaffected orders unchanged. -/
theorem compute_after_del_filter (db : DB) (iid : Nat) (oid' : Nat)
    (hnm : oid' ∉ (db.order_items.filter (fun oi => oi.id == iid)).map
      (fun oi => oi.order_id)) :
    compute_order_total
      { db with order_items := db.order_items.filter (fun oi => !(oi.id == iid)) }
      oid' = compute_order_total db oid' := by
  have hrm : ∀ r ∈ db.order_items, (r.id == iid) = true → r.order_id ≠ oid' := by
    intro r hr hri hro
    apply hnm
    rw [← hro]
    exact List.mem_map_of_mem _ (List.mem_filter.mpr ⟨hr, hri⟩)
  show (((db.order_items.filter (fun oi => !(oi.id == iid))).filter
      (fun oi => oi.order_id == oid')).map
        (fun oi => oi.quantity * oi.unit_price_cents)).sum =
    compute_order_total db oid'
  rw [filter_filter_removed db.order_items iid oid' hrm]
  rfl

/-- The trigger-guarded quantity update preserves the database invariant. -/
theorem update_order_item_qty_inv (db : DB) (iid : Nat) (qty : Int)
    (hinv : DBInv db) : DBInv (update_order_item_qty db iid qty) := by
  obtain ⟨htot, hfr, hfk⟩ := hinv
  have hconv : update_order_item_qty db iid qty =
      ((db.order_items.filter (fun oi => oi.id == iid)).map
        (fun oi => oi.order_id)).foldl update_order_total
        { db with order_items := (db.order_items.map
            (fun oi => if oi.id == iid then { oi with quantity := qty } else oi)) } := by
    unfold update_order_item_qty
    rw [List.foldl_map]
  rw [hconv]
  have hfk1 : items_fk
      { db with order_items := (db.order_items.map
          (fun oi => if oi.id == iid then { oi with quantity := qty } else oi)) } := by
    intro oi hoi
    obtain ⟨r, hr, hre⟩ := List.mem_map.mp hoi
    have hro : oi.order_id = r.order_id := by
      subst hre
      by_cases h : r.id == iid <;> simp [h]
    show oi.order_id ∈ db.orders.map Order.id
    rw [hro]
    exact hfk r hr
  refine ⟨?_, ?_, ?_⟩
  · exact totals_ok_recompute db
      { db with order_items := (db.order_items.map
          (fun oi => if oi.id == iid then { oi with quantity := qty } else oi)) }
      ((db.order_items.filter (fun oi => oi.id == iid)).map (fun oi => oi.order_id))
      rfl (fun oid' hnm => compute_after_qty_map db iid qty oid' hnm) htot
  · exact recompute_fold_fresh _ _ hfr
  · exact recompute_fold_fk _ _ hfk1

/-- The trigger-guarded row delete preserves the database invariant. -/
theorem delete_order_item_inv (db : DB) (iid : Nat)
    (hinv : DBInv db) : DBInv (delete_order_item db iid) := by
  obtain ⟨htot, hfr, hfk⟩ := hinv
  have hconv : delete_order_item db iid =
      ((db.order_items.filter (fun oi => oi.id == iid)).map
        (fun oi => oi.order_id)).foldl update_order_total
        { db with order_items := db.order_items.filter (fun oi => !(oi.id == iid)) } := by
    unfold delete_order_item
    rw [List.foldl_map]
  rw [hconv]
  have hfk1 : items_fk
      { db with order_items := db.order_items.filter (fun oi => !(oi.id == iid)) } := by
    intro oi hoi
    exact hfk oi (List.mem_of_mem_filter hoi)
  refine ⟨?_, ?_, ?_⟩
  · exact totals_ok_recompute db
      { db with order_items := db.order_items.filter (fun oi => !(oi.id == iid)) }
      ((db.order_items.filter (fun oi => oi.id == iid)).map (fun oi => oi.order_id))
      rfl (fun oid' hnm => compute_after_del_filter db iid oid' hnm) htot
  · exact recompute_fold_fresh _ _ hfr
  · exact recompute_fold_fk _ _ hfk1

/-- `place_order_txn` preserves the database invariant. -/
theorem place_order_txn_inv (db : DB) (uid : Option Nat) (items : List ReqItem)
    (hinv : DBInv db) : DBInv (place_order_txn db uid items).1 := by
  cases hpo : place_order db uid items with
  | error e =>
    rw [place_order_txn_fst_error db uid items e hpo]
    exact hinv
  | ok pr =>
    obtain ⟨dbn, oid⟩ := pr
    have htx : place_order_txn db uid items = (dbn, .ok oid) := by
      unfold place_order_txn
      rw [hpo]
    rw [htx]
    exact place_order_ok_inv db dbn uid items oid hpo hinv

/-- `set_order_status_txn` preserves the database invariant. -/
theorem set_order_status_txn_inv (db : DB) (uid : Option Nat) (oid : Nat)
    (next : OrderStatus) (hinv : DBInv db) :
    DBInv (set_order_status_txn db uid oid next).1 := by
  obtain ⟨htot, hfr, hfk⟩ := hinv
  cases hs : set_order_status db uid oid next with
  | error e =>
    have hfst : (set_order_status_txn db uid oid next).1 = db := by
      unfold set_order_status_txn
      rw [hs]
    rw [hfst]
    exact ⟨htot, hfr, hfk⟩
  | ok db1 =>
    have hfst : (set_order_status_txn db uid oid next).1 = db1 := by
      unfold set_order_status_txn
      rw [hs]
    rw [hfst]
    unfold set_order_status at hs
    split at hs
    · exact Except.noConfusion hs
    · rename_i o hfind
      split at hs
      · exact Except.noConfusion hs
      · injection hs with h1
        subst h1
        obtain ⟨heo, hei, hen⟩ := enqueue_order_confirmation_frame
          { db with orders := (db.orders.map
              (fun x => if x.id == oid then { x with status := next } else x)) }
          { o with status := next } o.status
        have hitems : (status_update db oid next o).order_items = db.order_items := hei
        have hids : (status_update db oid next o).orders.map Order.id =
            db.orders.map Order.id := by
          unfold status_update
          rw [heo, List.map_map]
          apply List.map_congr_left
          intro x _
          by_cases h : x.id == oid <;> simp [Function.comp, h]
        refine ⟨?_, ?_, ?_⟩
        · intro o' ho'
          have ho2 : o' ∈ (db.orders.map
              (fun x => if x.id == oid then { x with status := next } else x)) := by
            unfold status_update at ho'
            rw [heo] at ho'
            exact ho'
          obtain ⟨o0, ho0, hoe⟩ := List.mem_map.mp ho2
          have htc : o'.total_cents = o0.total_cents := by
            subst hoe
            by_cases h : o0.id == oid <;> simp [h]
          have hic : o'.id = o0.id := by
            subst hoe
            by_cases h : o0.id == oid <;> simp [h]
          rw [compute_order_total_ext db _ hitems o'.id, htc, hic]
          exact htot o0 ho0
        · intro o' ho'
          have ho2 : o' ∈ (db.orders.map
              (fun x => if x.id == oid then { x with status := next } else x)) := by
            unfold status_update at ho'
            rw [heo] at ho'
            exact ho'
          obtain ⟨o0, ho0, hoe⟩ := List.mem_map.mp ho2
          have hic : o'.id = o0.id := by
            subst hoe
            by_cases h : o0.id == oid <;> simp [h]
          have hnn : db.next_id ≤ (status_update db oid next o).next_id := hen
          rw [hic]
          exact Nat.lt_of_lt_of_le (hfr o0 ho0) hnn
        · intro oi hoi
          rw [hitems] at hoi
          rw [hids]
          exact hfk oi hoi

/-- The drain loop touches only the mail queue. -/
theorem drain_fold_frame (deliver : MailJob → Bool) (now : Nat) :
    ∀ (todo : List MailJob) (db : DB),
      (todo.foldl (fun acc j =>
          mark_job acc j.id (if deliver j then "sent" else "error") now) db).orders =
        db.orders ∧
      (todo.foldl (fun acc j =>
          mark_job acc j.id (if deliver j then "sent" else "error") now) db).order_items =
        db.order_items ∧
      (todo.foldl (fun acc j =>
          mark_job acc j.id (if deliver j then "sent" else "error") now) db).next_id =
        db.next_id := by
  intro todo
  induction todo with
  | nil => intro db; exact ⟨rfl, rfl, rfl⟩
  | cons j rest ih =>
    intro db
    obtain ⟨a, b, c⟩ := ih (mark_job db j.id (if deliver j then "sent" else "error") now)
    exact ⟨a, b, c⟩

/-- The queue drain preserves the database invariant. -/
theorem drain_mail_queue_inv (deliver : MailJob → Bool) (now : Nat) (db : DB)
    (hinv : DBInv db) : DBInv (drain_mail_queue deliver now db) := by
  obtain ⟨htot, hfr, hfk⟩ := hinv
  obtain ⟨ha, hb, hc⟩ := drain_fold_frame deliver now (claimed_jobs db) db
  have hdo : (drain_mail_queue deliver now db).orders = db.orders := ha
  have hdi : (drain_mail_queue deliver now db).order_items = db.order_items := hb
  have hdn : (drain_mail_queue deliver now db).next_id = db.next_id := hc
  refine ⟨?_, ?_, ?_⟩
  · intro o ho
    rw [hdo] at ho
    rw [compute_order_total_ext db _ hdi o.id]
    exact htot o ho
  · intro o ho
    rw [hdo] at ho
    rw [hdn]
    exact hfr o ho
  · intro oi hoi
    rw [hdi] at hoi
    rw [hdo]
    exact hfk oi hoi

/-- Every public step preserves the database invariant. -/
theorem step_preserves_inv (db db' : DB) (hs : Step db db') (hinv : DBInv db) :
    DBInv db' := by
  cases hs with
  | place uid items db => exact place_order_txn_inv db uid items hinv
  | set_status uid oid next db => exact set_order_status_txn_inv db uid oid next hinv
  | ins_item db oid pid qty price hfk =>
    exact (insert_order_item_inv db oid pid qty price hinv hfk).1
  | upd_item db iid qty => exact update_order_item_qty_inv db iid qty hinv
  | del_item db iid => exact delete_order_item_inv db iid hinv
  | drain deliver now db => exact drain_mail_queue_inv deliver now db hinv

/-- C6: in every state reachable from a well-formed state through the public
operations, each order's stored total equals its computed total, and an
order with no line items has both equal to 0. -/
theorem total_always_matches (db db' : DB)
    (hinv : DBInv db)
    (hreach : Relation.ReflTransGen Step db db') :
    totals_ok db' ∧
    ∀ o ∈ db'.orders,
      db'.order_items.filter (fun oi => oi.order_id == o.id) = [] →
      o.total_cents = 0 ∧ compute_order_total db' o.id = 0 := by
  have hinv' : DBInv db' := by
    induction hreach with
    | refl => exact hinv
    | tail h1 h2 ih => exact step_preserves_inv _ _ h2 ih
  refine ⟨hinv'.1, ?_⟩
  intro o ho hfl
  have hc : compute_order_total db' o.id = 0 := by
    unfold compute_order_total
    rw [hfl]
    rfl
  exact ⟨(hinv'.1 o ho).trans hc, hc⟩

/-- C6 witness: inserting an item (qty 2 at price 500) for the pending order
5 yields a state whose stored totals all match the computed totals. -/
theorem total_always_matches_witness :
    totals_ok (insert_order_item exDbPend 5 2 2 500) :=
  (total_always_matches exDbPend (insert_order_item exDbPend 5 2 2 500)
    ⟨by unfold totals_ok compute_order_total; decide,
     by unfold orders_fresh; decide,
     by unfold items_fk; decide⟩
    (Relation.ReflTransGen.tail Relation.ReflTransGen.refl
      (Step.ins_item exDbPend 5 2 2 500 (by decide)))).1
